import Mathlib

set_option linter.unusedVariables false

/-! Shallow embedding of mbtool's ROM switcher (src/mbtool/switcher.cpp) and of
the v2 privileged-open wire schema (src/protocol/v2/open.fbs). Filesystem and
OS facilities that switcher.cpp consumes (stat, readdir, file reads/writes,
SHA512, the ROM registry, fix_permissions) are abstracted into an explicit
environment record; everything the switcher itself does is translated
faithfully from the source. -/

/-- Fixed multiboot image directory (`MULTIBOOT_DIR` in switcher.cpp). -/
def multiboot_dir : String := "/data/media/0/MultiBoot"

/-- Fixed checksums property file path (`CHECKSUMS_PATH` in switcher.cpp). -/
def checksums_file_path : String := "/data/multiboot/checksums.prop"

/-- Result of `checksums_get` (`ChecksumsGetResult` in switcher.h). -/
inductive ChecksumsGetResult where
  | found (digest : String)
  | notFound
  | malformed
  deriving DecidableEq

/-- Result of `switch_rom` (`SwitchRomResult` in switcher.h). -/
inductive SwitchRomResult where
  | succeeded
  | failed
  | checksumNotFound
  | checksumInvalid
  deriving DecidableEq

/-- Association-list model of `std::unordered_map<std::string, std::string>` lookup. -/
def store_get : List (String × String) → String → Option String
  | [], _ => none
  | (k, v) :: rest, key => if k = key then some v else store_get rest key

/-- Association-list model of `std::unordered_map` insert-or-assign (`(*props)[key] = v`). -/
def store_set : List (String × String) → String → String → List (String × String)
  | [], key, v => [(key, v)]
  | (k, w) :: rest, key, v =>
    if k = key then (key, v) :: rest else (k, w) :: store_set rest key v

/-- Split a character list at the first ':'; models `value.find(":")` followed by
`value.substr(0, pos)` / `value.substr(pos + 1)` in `checksums_get`. -/
def splitFirstColon : List Char → Option (List Char × List Char)
  | [] => none
  | c :: cs =>
    if c = ':' then some ([], cs)
    else
      match splitFirstColon cs with
      | none => none
      | some (a, b) => some (c :: a, b)

/-- `checksums_get` (switcher.cpp lines 60-94): look up `rom_id + "/" + image`;
absent key is `notFound`; a value without ':' or whose algorithm tag is not
"sha512" is `malformed`; otherwise `found` with the part after the first ':'. -/
def checksums_get (props : List (String × String)) (rom_id image : String) :
    ChecksumsGetResult :=
  match store_get props (rom_id ++ "/" ++ image) with
  | none => ChecksumsGetResult.notFound
  | some value =>
    match splitFirstColon value.data with
    | none => ChecksumsGetResult.malformed
    | some (algo, hash) =>
      if String.mk algo = "sha512" then ChecksumsGetResult.found (String.mk hash)
      else ChecksumsGetResult.malformed

/-- `checksums_update` (switcher.cpp lines 104-115): set key `rom_id + "/" + image`
to `"sha512:" + sha512`. -/
def checksums_update (props : List (String × String)) (rom_id image sha512 : String) :
    List (String × String) :=
  store_set props (rom_id ++ "/" ++ image) ("sha512:" ++ sha512)

/-- Boolean prefix test on character lists; model of `util::starts_with`. -/
def has_pre (pat s : List Char) : Bool := decide (s.take pat.length = pat)

/-- Boolean suffix test on character lists; model of `util::ends_with`. -/
def has_suf (pat s : List Char) : Bool := decide (s.drop (s.length - pat.length) = pat)

/-- Characters after the last '/'; model of `util::base_name`. -/
def base_name_list : List Char → List Char
  | [] => []
  | c :: cs =>
    if c = '/' then base_name_list cs
    else if '/' ∈ cs then base_name_list cs
    else c :: base_name_list cs

/-- Model of `util::base_name` on strings. -/
def base_name (s : String) : String := String.mk (base_name_list s.data)

/-- Search-directory loop of `find_block_dev` (switcher.cpp lines 207-215). -/
def find_block_dev_loop (ex : String → Bool) : List String → String → String
  | [], _ => ""
  | d :: ds, p => if ex (d ++ "/" ++ p) then d ++ "/" ++ p else find_block_dev_loop ex ds p

/-- `find_block_dev` (switcher.cpp lines 193-218): names starting with "mmcblk"
are first probed directly under /dev/block/; otherwise (or if that probe fails)
each search directory is probed in order; "" when nothing exists. `ex` models
`stat(path) == 0`. -/
def find_block_dev (ex : String → Bool) (search_dirs : List String) (partition : String) :
    String :=
  if has_pre "mmcblk".data partition.data && ex ("/dev/block/" ++ partition) then
    "/dev/block/" ++ partition
  else find_block_dev_loop ex search_dirs partition

/-- `Flashable` from switcher.cpp (the `size` field is `data.length`). -/
structure Flashable where
  image : String
  block_dev : String
  expected_hash : String
  hash : String
  data : List Nat
  deriving DecidableEq

/-- Abstraction of the OS facilities and collaborators consumed by switcher.cpp:
SHA512+hex digest, the ROM registry existence check, `mkdir_recursive` success,
`opendir`/`readdir` listing, `stat` existence, `file_read_all`,
`file_write_data` success, the loaded checksums property map, and
`fix_permissions` success. -/
structure Env where
  sha512hex : List Nat → String
  romExists : String → Bool
  mkdirOk : Bool
  listDir : String → Option (List String)
  pathExists : String → Bool
  readFile : String → Option (List Nat)
  writeOk : String → Bool
  checksumsProps : List (String × String)
  fixPermsOk : Bool

/-- Observable events of one `switch_rom` execution, in program order. -/
inductive Event where
  | readOk (image : String)
  | readFail (image : String)
  | digest (image : String)
  | verify (image : String)
  | devWrite (dev : String) (data : List Nat)
  | devWriteFail (dev : String)
  deriving DecidableEq

/-- Body of the `readdir` loop in `add_extra_images` (switcher.cpp lines 272-309):
skip non-`.img` names, skip boot images, whitelist only `mdm`/`modem`, skip
partitions with no resolvable block device. -/
def extra_images (env : Env) (mp : String) (dirs : List String) : List String → List Flashable
  | [] => []
  | name :: rest =>
    if name = ".img" || !(has_suf ".img".data name.data) then extra_images env mp dirs rest
    else if has_pre "boot.img".data name.data then extra_images env mp dirs rest
    else
      let partition := String.mk (name.data.take (name.data.length - 4))
      if partition ≠ "mdm" ∧ partition ≠ "modem" then extra_images env mp dirs rest
      else
        let block_dev := find_block_dev env.pathExists dirs partition
        if block_dev = "" then extra_images env mp dirs rest
        else ⟨mp ++ "/" ++ name, block_dev, "", "", []⟩ :: extra_images env mp dirs rest

/-- `add_extra_images` (switcher.cpp lines 256-312); an `opendir` failure yields
no extra flashables (the caller only logs a warning). -/
def add_extra_images (env : Env) (mp : String) (dirs : List String) : List Flashable :=
  match env.listDir mp with
  | none => []
  | some names => extra_images env mp dirs names

/-- `multiboot_path` built in `switch_rom`/`set_kernel`. -/
def multiboot_path (id : String) : String := multiboot_dir ++ "/" ++ id

/-- `bootimg_path` built in `switch_rom`/`set_kernel`. -/
def bootimg_path (id : String) : String := multiboot_path id ++ "/" ++ "boot.img"

/-- Full flashable list built by `switch_rom`: the boot image first (destination
is the caller-supplied boot block device), then the extra images. -/
def flashable_list (env : Env) (id bd : String) (dirs : List String) : List Flashable :=
  ⟨bootimg_path id, bd, "", "", []⟩ :: add_extra_images env (multiboot_path id) dirs

/-- Output of the read/hash/verify loop. -/
structure LoopOut where
  flashables : List Flashable
  props : List (String × String)
  events : List Event
  early : Option SwitchRomResult

/-- The read/hash/verify loop of `switch_rom` (switcher.cpp lines 386-418):
per flashable, read the whole image (failure aborts with FAILED), compute the
SHA512 digest, when forcing update the store entry, then look the entry up;
a malformed entry or a mismatching found entry aborts with CHECKSUM_INVALID. -/
def readVerify (env : Env) (id : String) (force : Bool) :
    List Flashable → List (String × String) → LoopOut
  | [], props => ⟨[], props, [], none⟩
  | f :: fs, props =>
    match env.readFile f.image with
    | none => ⟨[], props, [Event.readFail f.image], some SwitchRomResult.failed⟩
    | some bytes =>
      let h := env.sha512hex bytes
      let props1 := if force then checksums_update props id (base_name f.image) h else props
      match checksums_get props1 id (base_name f.image) with
      | ChecksumsGetResult.malformed =>
        ⟨[], props1, [Event.readOk f.image, Event.digest f.image, Event.verify f.image],
         some SwitchRomResult.checksumInvalid⟩
      | ChecksumsGetResult.found exp =>
        if exp = h then
          let o := readVerify env id force fs props1
          ⟨⟨f.image, f.block_dev, exp, h, bytes⟩ :: o.flashables, o.props,
           Event.readOk f.image :: Event.digest f.image :: Event.verify f.image :: o.events,
           o.early⟩
        else
          ⟨[], props1, [Event.readOk f.image, Event.digest f.image, Event.verify f.image],
           some SwitchRomResult.checksumInvalid⟩
      | ChecksumsGetResult.notFound =>
        let o := readVerify env id force fs props1
        ⟨⟨f.image, f.block_dev, "", h, bytes⟩ :: o.flashables, o.props,
         Event.readOk f.image :: Event.digest f.image :: Event.verify f.image :: o.events,
         o.early⟩

/-- Missing-checksum sweep of `switch_rom` (switcher.cpp lines 423-428). -/
def missing_sweep : List Flashable → Option SwitchRomResult
  | [] => none
  | f :: fs =>
    if f.expected_hash = "" then some SwitchRomResult.checksumNotFound else missing_sweep fs

/-- Events of the flash loop of `switch_rom` (switcher.cpp lines 431-439). -/
def flash_events (env : Env) : List Flashable → List Event
  | [] => []
  | f :: fs =>
    if env.writeOk f.block_dev then Event.devWrite f.block_dev f.data :: flash_events env fs
    else [Event.devWriteFail f.block_dev]

/-- Result of the flash loop: `some failed` at the first failing write. -/
def flash_result (env : Env) : List Flashable → Option SwitchRomResult
  | [] => none
  | f :: fs =>
    if env.writeOk f.block_dev then flash_result env fs else some SwitchRomResult.failed

/-- Output of `switch_rom`: the result code, the event trace, and the property
map passed to `checksums_write` when it was invoked. -/
structure SwitchOut where
  result : SwitchRomResult
  events : List Event
  persisted : Option (List (String × String))

/-- `switch_rom` (switcher.cpp lines 333-451): validate the ROM id, create the
multiboot directory, build the flashable list, run the read/hash/verify loop,
the missing-checksum sweep, the flash loop, persist the checksums when forcing,
and finally fix permissions (whose failure turns the result into FAILED). -/
def switch_rom (env : Env) (id bd : String) (dirs : List String) (force : Bool) : SwitchOut :=
  if env.romExists id = true then
    if env.mkdirOk = true then
      let o := readVerify env id force (flashable_list env id bd dirs) env.checksumsProps
      match o.early with
      | some r => ⟨r, o.events, none⟩
      | none =>
        match missing_sweep o.flashables with
        | some r => ⟨r, o.events, none⟩
        | none =>
          match flash_result env o.flashables with
          | some r => ⟨r, o.events ++ flash_events env o.flashables, none⟩
          | none =>
            ⟨if env.fixPermsOk then SwitchRomResult.succeeded else SwitchRomResult.failed,
             o.events ++ flash_events env o.flashables,
             if force then some o.props else none⟩
    else ⟨SwitchRomResult.failed, [], none⟩
  else ⟨SwitchRomResult.failed, [], none⟩

/-- Output of `set_kernel`: success flag and the property map passed to
`checksums_write` when it was invoked. -/
structure SetKernelOut where
  ok : Bool
  persisted : Option (List (String × String))

/-- `set_kernel` (switcher.cpp lines 464-534): validate the ROM id, create the
directory, read the boot block device, hash it, update only the `boot.img`
entry of the loaded store, write the buffer to the stored boot image path,
persist the store (return value ignored), and fix permissions. -/
def set_kernel (env : Env) (id bd : String) : SetKernelOut :=
  if env.romExists id = true then
    if env.mkdirOk = true then
      match env.readFile bd with
      | none => ⟨false, none⟩
      | some bytes =>
        let h := env.sha512hex bytes
        let props := checksums_update env.checksumsProps id "boot.img" h
        if env.writeOk (bootimg_path id) then
          if env.fixPermsOk then ⟨true, some props⟩ else ⟨false, some props⟩
        else ⟨false, none⟩
    else ⟨false, none⟩
  else ⟨false, none⟩

/-- `OpenFlag` enum from open.fbs. -/
inductive OpenFlag where
  | APPEND
  | CREAT
  | EXCL
  | RDWR
  | TRUNC
  | WRONLY
  deriving DecidableEq

/-- `OpenRequest` table from open.fbs: a path and a list of symbolic flags. -/
structure OpenRequest where
  path : String
  flags : List OpenFlag

/-- `OpenResponse` table from open.fbs: a success bit and an error message;
the opened descriptor is not part of the response. -/
structure OpenResponse where
  success : Bool
  error_msg : String

/-- Whether an event is a successful block-device write. -/
def is_dev_write : Event → Bool
  | Event.devWrite _ _ => true
  | _ => false

/-- Whether an event belongs to the flash loop. -/
def is_flash_event : Event → Bool
  | Event.devWrite _ _ => true
  | Event.devWriteFail _ => true
  | _ => false

/-- Whether an event is a successful image read. -/
def is_read_ok : Event → Bool
  | Event.readOk _ => true
  | _ => false

/-- Whether an event is a digest computation. -/
def is_digest_ev : Event → Bool
  | Event.digest _ => true
  | _ => false

/-- The phase ordering claimed by the spec for `switch_rom`: every successful
read event precedes every digest-computation event of the trace. -/
def reads_phase_first (tr : List Event) : Prop :=
  ∀ i j : Fin tr.length, is_read_ok (tr.get i) = true → is_digest_ev (tr.get j) = true →
    (i : Nat) < (j : Nat)

/-- Per-image ordering: before any digest computation or checksum verification
of an image, that same image was successfully read. -/
def each_image_read_before_use (tr : List Event) : Prop :=
  ∀ n img, (tr.get? n = some (Event.digest img) ∨ tr.get? n = some (Event.verify img)) →
    Event.readOk img ∈ tr.take n

/-- SHA512 hex digest of the bytes `switch_rom` reads for a flashable. -/
def image_hash (env : Env) (f : Flashable) : String :=
  env.sha512hex ((env.readFile f.image).getD [])

/-- Checksum-store key of a flashable. -/
def fkey (id : String) (f : Flashable) : String := id ++ "/" ++ base_name f.image

/-- Whether the loaded store's entry for a flashable is malformed or present but
mismatching the computed digest. -/
def bad_entry (env : Env) (id : String) (f : Flashable) : Bool :=
  match checksums_get env.checksumsProps id (base_name f.image) with
  | ChecksumsGetResult.malformed => true
  | ChecksumsGetResult.found e => decide (e ≠ image_hash env f)
  | ChecksumsGetResult.notFound => false

/-- A flashable as the read/verify loop leaves it on the all-pass path with
`force_update_checksums` set. -/
def populate (env : Env) (f : Flashable) : Flashable :=
  ⟨f.image, f.block_dev, image_hash env f, image_hash env f, (env.readFile f.image).getD []⟩

/-- Concrete environment whose every image read fails. -/
def envC1 : Env :=
  ⟨fun _ => "hh", fun s => decide (s = "r1"), true, fun _ => none, fun _ => false,
   fun _ => none, fun _ => true, [], true⟩

/-- Concrete environment with a mismatching boot entry and an absent mdm entry. -/
def envC2 : Env :=
  ⟨fun b => if b = [0] then "h0" else "h1", fun s => decide (s = "r1"), true,
   fun s => if s = "/data/media/0/MultiBoot/r1" then some ["mdm.img"] else none,
   fun s => decide (s = "/dv/mdm"),
   fun s =>
     if s = "/data/media/0/MultiBoot/r1/boot.img" then some [0]
     else if s = "/data/media/0/MultiBoot/r1/mdm.img" then some [1] else none,
   fun _ => true, [("r1/boot.img", "sha512:bad")], true⟩

/-- Concrete environment with two images (boot plus mdm) whose reads succeed. -/
def envC3 : Env :=
  ⟨fun b => if b = [0] then "h0" else "h1", fun s => decide (s = "r1"), true,
   fun s => if s = "/data/media/0/MultiBoot/r1" then some ["mdm.img"] else none,
   fun s => decide (s = "/dv/mdm"),
   fun s =>
     if s = "/data/media/0/MultiBoot/r1/boot.img" then some [0]
     else if s = "/data/media/0/MultiBoot/r1/mdm.img" then some [1] else none,
   fun _ => true, [], true⟩

/-- Concrete property map with one well-formed and one malformed entry. -/
def propsC4 : List (String × String) := [("r/a", "sha512:abc"), ("r/b", "zzz")]

/-- Concrete environment where every step of a forced switch succeeds. -/
def envC5 : Env :=
  ⟨fun b => if b = [0] then "h0" else "h1", fun s => decide (s = "r1"), true,
   fun s => if s = "/data/media/0/MultiBoot/r1" then some ["mdm.img"] else none,
   fun s => decide (s = "/dv/mdm"),
   fun s =>
     if s = "/data/media/0/MultiBoot/r1/boot.img" then some [0]
     else if s = "/data/media/0/MultiBoot/r1/mdm.img" then some [1] else none,
   fun _ => true, [], true⟩

/-- Concrete environment for a successful `set_kernel` over a pre-populated store. -/
def envC6 : Env :=
  ⟨fun _ => "hh", fun s => decide (s = "r1"), true, fun _ => none, fun _ => false,
   fun s => if s = "/dev/bootdev" then some [7] else none,
   fun _ => true, [("other/entry", "sha512:aa")], true⟩

/-- The store `set_kernel` persists in `envC6`. -/
def psC6 : List (String × String) :=
  [("other/entry", "sha512:aa"), ("r1/boot.img", "sha512:hh")]

/-- Concrete environment for a forced switch whose flash step fails. -/
def envC9 : Env :=
  ⟨fun b => if b = [0] then "h0" else "h1", fun s => decide (s = "r1"), true,
   fun s => if s = "/data/media/0/MultiBoot/r1" then some ["mdm.img"] else none,
   fun s => decide (s = "/dv/mdm"),
   fun s =>
     if s = "/data/media/0/MultiBoot/r1/boot.img" then some [0]
     else if s = "/data/media/0/MultiBoot/r1/mdm.img" then some [1] else none,
   fun _ => false, [("r1/boot.img", "zzz")], true⟩

theorem string_ext {a b : String} (h : a.data = b.data) : a = b := by
  cases a
  cases b
  cases h
  rfl

theorem string_data_append (a b : String) : (a ++ b).data = a.data ++ b.data := rfl

theorem store_get_set_self (s : List (String × String)) (k v : String) :
    store_get (store_set s k v) k = some v := by
  induction s with
  | nil => simp [store_set, store_get]
  | cons p rest ih =>
    obtain ⟨a, b⟩ := p
    by_cases h : a = k
    · simp [store_set, store_get, h]
    · simp [store_set, store_get, h, ih]

theorem store_get_set_ne (s : List (String × String)) (k v k' : String) (h : k' ≠ k) :
    store_get (store_set s k v) k' = store_get s k' := by
  have h' : ¬ k = k' := fun hh => h hh.symm
  induction s with
  | nil => simp [store_set, store_get, h']
  | cons p rest ih =>
    obtain ⟨a, b⟩ := p
    by_cases hp : a = k
    · simp [store_set, store_get, hp, h']
    · simp [store_set, store_get, hp, ih]

theorem sfc_none_of {l : List Char} (h : ':' ∉ l) : splitFirstColon l = none := by
  induction l with
  | nil => rfl
  | cons c cs ih =>
    have hc : ¬ c = ':' := fun hh => h (hh ▸ List.mem_cons_self c cs)
    have hcs : ':' ∉ cs := fun hh => h (List.mem_cons_of_mem c hh)
    simp [splitFirstColon, hc, ih hcs]

theorem sfc_some_of {l : List Char} (h : ':' ∈ l) :
    splitFirstColon l =
      some (l.takeWhile (fun c => decide (c ≠ ':')), (l.dropWhile (fun c => decide (c ≠ ':'))).tail) := by
  induction l with
  | nil => cases h
  | cons c cs ih =>
    by_cases hc : c = ':'
    · subst hc
      simp [splitFirstColon, List.takeWhile, List.dropWhile]
    · have hcs : ':' ∈ cs := by
        cases h with
        | head => exact absurd rfl hc
        | tail _ hh => exact hh
      simp [splitFirstColon, hc, ih hcs, List.takeWhile, List.dropWhile]

theorem sfc_sha512 (l : List Char) :
    splitFirstColon ("sha512:".data ++ l) = some ("sha512".data, l) := rfl

theorem get_update_found (props : List (String × String)) (rom_id image h : String) :
    checksums_get (checksums_update props rom_id image h) rom_id image =
      ChecksumsGetResult.found h := by
  unfold checksums_get checksums_update
  rw [store_get_set_self]
  have hd : ("sha512:" ++ h).data = "sha512:".data ++ h.data := rfl
  simp only [hd, sfc_sha512]
  rfl

theorem bn_no_slash {l : List Char} (h : '/' ∉ l) : base_name_list l = l := by
  induction l with
  | nil => rfl
  | cons c cs ih =>
    have hc : ¬ c = '/' := fun hh => h (hh ▸ List.mem_cons_self c cs)
    have hcs : '/' ∉ cs := fun hh => h (List.mem_cons_of_mem c hh)
    simp [base_name_list, hc, hcs, ih hcs]

theorem bn_after_slash (l : List Char) {n : List Char} (h : '/' ∉ n) :
    base_name_list (l ++ '/' :: n) = n := by
  induction l with
  | nil => simpa [base_name_list] using bn_no_slash h
  | cons c cs ih =>
    by_cases hc : c = '/'
    · simpa [base_name_list, hc] using ih
    · have hm : '/' ∈ cs ++ '/' :: n := by
        simp
      simp [base_name_list, hc, hm, ih]

theorem base_name_append (s n : String) (h : '/' ∉ n.data) :
    base_name (s ++ "/" ++ n) = n := by
  unfold base_name
  have hd : (s ++ "/" ++ n).data = s.data ++ '/' :: n.data := by
    rw [string_data_append, string_data_append]
    simp
  rw [hd, bn_after_slash s.data h]

theorem fbd_loop_eq_find (ex : String → Bool) (p : String) (dirs : List String) :
    find_block_dev_loop ex dirs p = ((dirs.map fun d => d ++ "/" ++ p).find? ex).getD "" := by
  induction dirs with
  | nil => rfl
  | cons d ds ih =>
    by_cases h : ex (d ++ "/" ++ p) = true
    · simp [find_block_dev_loop, h, List.find?_cons_of_pos _ h]
    · simp [find_block_dev_loop, h, List.find?_cons_of_neg _ h, ih]

theorem img_name_eq {name w : String} (hs : has_suf ".img".data name.data = true)
    (hw : String.mk (name.data.take (name.data.length - 4)) = w) :
    name = w ++ ".img" := by
  have hd : name.data.drop (name.data.length - 4) = ".img".data := by
    have h0 := of_decide_eq_true hs
    have hlen : (".img".data).length = 4 := rfl
    rw [hlen] at h0
    exact h0
  have htake : name.data.take (name.data.length - 4) = w.data := congrArg String.data hw
  apply string_ext
  rw [string_data_append, ← htake, ← hd, List.take_append_drop]

theorem extra_images_shape (env : Env) (mp : String) (dirs : List String) :
    ∀ names f, f ∈ extra_images env mp dirs names →
      ∃ n : String, (n = "mdm.img" ∨ n = "modem.img") ∧ f.image = mp ++ "/" ++ n := by
  intro names
  induction names with
  | nil => intro f hf; cases hf
  | cons name rest ih =>
    intro f hf
    simp only [extra_images] at hf
    by_cases h1 : (name = ".img" || !(has_suf ".img".data name.data)) = true
    · rw [if_pos h1] at hf
      exact ih f hf
    · rw [if_neg h1] at hf
      by_cases h2 : has_pre "boot.img".data name.data = true
      · rw [if_pos h2] at hf
        exact ih f hf
      · rw [if_neg h2] at hf
        by_cases h3 : String.mk (name.data.take (name.data.length - 4)) ≠ "mdm" ∧
            String.mk (name.data.take (name.data.length - 4)) ≠ "modem"
        · rw [if_pos h3] at hf
          exact ih f hf
        · rw [if_neg h3] at hf
          have hsuf : has_suf ".img".data name.data = true := by
            rcases Bool.or_eq_false_iff.mp (Bool.eq_false_iff.mpr h1) with ⟨-, hb⟩
            simpa using hb
          have hwl : String.mk (name.data.take (name.data.length - 4)) = "mdm" ∨
              String.mk (name.data.take (name.data.length - 4)) = "modem" := by
            by_contra hc
            push_neg at hc
            exact h3 ⟨hc.1, hc.2⟩
          have hname : name = "mdm.img" ∨ name = "modem.img" := by
            rcases hwl with hw | hw
            · exact Or.inl (img_name_eq hsuf hw)
            · exact Or.inr (img_name_eq hsuf hw)
          by_cases h4 : find_block_dev env.pathExists dirs
              (String.mk (name.data.take (name.data.length - 4))) = ""
          · rw [if_pos h4] at hf
            exact ih f hf
          · rw [if_neg h4] at hf
            cases hf with
            | head =>
              refine ⟨name, ?_, rfl⟩
              rcases hname with hn | hn
              · exact Or.inl (by rw [hn])
              · exact Or.inr (by rw [hn])
            | tail _ htl => exact ih f htl

theorem flashable_image_shape (env : Env) (id bd : String) (dirs : List String) :
    ∀ f ∈ flashable_list env id bd dirs,
      ∃ n : String, '/' ∉ n.data ∧ f.image = multiboot_path id ++ "/" ++ n := by
  intro f hf
  rw [flashable_list] at hf
  cases hf with
  | head =>
    exact ⟨"boot.img", by decide, rfl⟩
  | tail _ htl =>
    rw [add_extra_images] at htl
    cases hl : env.listDir (multiboot_path id) with
    | none => rw [hl] at htl; cases htl
    | some names =>
      rw [hl] at htl
      obtain ⟨n, hn, hi⟩ := extra_images_shape env (multiboot_path id) dirs names f htl
      refine ⟨n, ?_, hi⟩
      rcases hn with h | h <;> subst h <;> decide

theorem flashable_base_name (env : Env) (id bd : String) (dirs : List String) :
    ∀ f ∈ flashable_list env id bd dirs,
      f.image = multiboot_path id ++ "/" ++ base_name f.image := by
  intro f hf
  obtain ⟨n, hn, hi⟩ := flashable_image_shape env id bd dirs f hf
  rw [hi, base_name_append _ _ hn]

theorem fkey_inj (env : Env) (id bd : String) (dirs : List String) :
    ∀ f ∈ flashable_list env id bd dirs, ∀ g ∈ flashable_list env id bd dirs,
      fkey id f = fkey id g → f.image = g.image := by
  intro f hf g hg hk
  obtain ⟨nf, hnf, hif⟩ := flashable_image_shape env id bd dirs f hf
  obtain ⟨ng, hng, hig⟩ := flashable_image_shape env id bd dirs g hg
  have bf : base_name f.image = nf := by rw [hif]; exact base_name_append _ _ hnf
  have bg : base_name g.image = ng := by rw [hig]; exact base_name_append _ _ hng
  rw [fkey, fkey, bf, bg] at hk
  have hd := congrArg String.data hk
  rw [string_data_append, string_data_append] at hd
  have hn : nf = ng := string_ext (List.append_cancel_left hd)
  rw [hif, hig, hn]

theorem rv_events_not_flash (env : Env) (id : String) (force : Bool) :
    ∀ L props, ∀ e ∈ (readVerify env id force L props).events, is_flash_event e = false := by
  intro L
  induction L with
  | nil => intro props e he; simp [readVerify] at he
  | cons f fs ih =>
    intro props e he
    simp only [readVerify] at he
    split at he
    · simp at he
      subst he
      rfl
    · split at he
      · simp at he
        rcases he with h | h | h <;> subst h <;> rfl
      · split at he
        · simp at he
          rcases he with h | h | h | h
          · subst h; rfl
          · subst h; rfl
          · subst h; rfl
          · exact ih _ e h
        · simp at he
          rcases he with h | h | h <;> subst h <;> rfl
      · simp at he
        rcases he with h | h | h | h
        · subst h; rfl
        · subst h; rfl
        · subst h; rfl
        · exact ih _ e h

theorem rv_readFail_early (env : Env) (id : String) (force : Bool) :
    ∀ L props img, Event.readFail img ∈ (readVerify env id force L props).events →
      (readVerify env id force L props).early = some SwitchRomResult.failed := by
  intro L
  induction L with
  | nil => intro props img h; simp [readVerify] at h
  | cons f fs ih =>
    intro props img
    simp only [readVerify]
    split
    · intro h
      rfl
    · split
      · intro h
        simp at h
      · split
        · intro h
          simp only [List.mem_cons] at h
          rcases h with h | h | h | h
          · cases h
          · cases h
          · cases h
          · exact ih _ img h
        · intro h
          simp at h
      · intro h
        simp only [List.mem_cons] at h
        rcases h with h | h | h | h
        · cases h
        · cases h
        · cases h
        · exact ih _ img h

theorem rv_step_fail (env : Env) (id : String) (force : Bool) (f : Flashable)
    (fs : List Flashable) (props : List (String × String))
    (hread : env.readFile f.image = none) :
    readVerify env id force (f :: fs) props =
      ⟨[], props, [Event.readFail f.image], some SwitchRomResult.failed⟩ := by
  simp [readVerify, hread]

theorem rv_step_force (env : Env) (id : String) (f : Flashable) (fs : List Flashable)
    (props : List (String × String)) (bytes : List Nat)
    (hread : env.readFile f.image = some bytes) :
    readVerify env id true (f :: fs) props =
      ⟨⟨f.image, f.block_dev, env.sha512hex bytes, env.sha512hex bytes, bytes⟩ ::
         (readVerify env id true fs
           (checksums_update props id (base_name f.image) (env.sha512hex bytes))).flashables,
       (readVerify env id true fs
         (checksums_update props id (base_name f.image) (env.sha512hex bytes))).props,
       Event.readOk f.image :: Event.digest f.image :: Event.verify f.image ::
         (readVerify env id true fs
           (checksums_update props id (base_name f.image) (env.sha512hex bytes))).events,
       (readVerify env id true fs
         (checksums_update props id (base_name f.image) (env.sha512hex bytes))).early⟩ := by
  simp [readVerify, hread, get_update_found]

theorem rv_step0_malformed (env : Env) (id : String) (f : Flashable) (fs : List Flashable)
    (props : List (String × String)) (bytes : List Nat)
    (hread : env.readFile f.image = some bytes)
    (hget : checksums_get props id (base_name f.image) = ChecksumsGetResult.malformed) :
    readVerify env id false (f :: fs) props =
      ⟨[], props, [Event.readOk f.image, Event.digest f.image, Event.verify f.image],
       some SwitchRomResult.checksumInvalid⟩ := by
  simp [readVerify, hread, hget]

theorem rv_step0_found_ne (env : Env) (id : String) (f : Flashable) (fs : List Flashable)
    (props : List (String × String)) (bytes : List Nat) (e : String)
    (hread : env.readFile f.image = some bytes)
    (hget : checksums_get props id (base_name f.image) = ChecksumsGetResult.found e)
    (hne : e ≠ env.sha512hex bytes) :
    readVerify env id false (f :: fs) props =
      ⟨[], props, [Event.readOk f.image, Event.digest f.image, Event.verify f.image],
       some SwitchRomResult.checksumInvalid⟩ := by
  simp [readVerify, hread, hget, hne]

theorem rv_step0_found_eq (env : Env) (id : String) (f : Flashable) (fs : List Flashable)
    (props : List (String × String)) (bytes : List Nat) (e : String)
    (hread : env.readFile f.image = some bytes)
    (hget : checksums_get props id (base_name f.image) = ChecksumsGetResult.found e)
    (heq : e = env.sha512hex bytes) :
    readVerify env id false (f :: fs) props =
      ⟨⟨f.image, f.block_dev, e, env.sha512hex bytes, bytes⟩ ::
         (readVerify env id false fs props).flashables,
       (readVerify env id false fs props).props,
       Event.readOk f.image :: Event.digest f.image :: Event.verify f.image ::
         (readVerify env id false fs props).events,
       (readVerify env id false fs props).early⟩ := by
  simp [readVerify, hread, hget, heq]

theorem rv_step0_notFound (env : Env) (id : String) (f : Flashable) (fs : List Flashable)
    (props : List (String × String)) (bytes : List Nat)
    (hread : env.readFile f.image = some bytes)
    (hget : checksums_get props id (base_name f.image) = ChecksumsGetResult.notFound) :
    readVerify env id false (f :: fs) props =
      ⟨⟨f.image, f.block_dev, "", env.sha512hex bytes, bytes⟩ ::
         (readVerify env id false fs props).flashables,
       (readVerify env id false fs props).props,
       Event.readOk f.image :: Event.digest f.image :: Event.verify f.image ::
         (readVerify env id false fs props).events,
       (readVerify env id false fs props).early⟩ := by
  simp [readVerify, hread, hget]

theorem rv_early_none_mem (env : Env) (id : String) (force : Bool) :
    ∀ L props, (readVerify env id force L props).early = none →
      ∀ g ∈ L, Event.readOk g.image ∈ (readVerify env id force L props).events ∧
        Event.verify g.image ∈ (readVerify env id force L props).events := by
  intro L
  induction L with
  | nil => intro props h g hg; cases hg
  | cons f fs ih =>
    intro props
    simp only [readVerify]
    split
    · intro h; simp at h
    · split
      · intro h; simp at h
      · split
        · intro h g hg
          cases hg with
          | head =>
            exact ⟨List.mem_cons_self _ _, by simp⟩
          | tail _ htl =>
            have hm := ih _ h g htl
            exact ⟨List.mem_cons_of_mem _ (List.mem_cons_of_mem _ (List.mem_cons_of_mem _ hm.1)),
                   List.mem_cons_of_mem _ (List.mem_cons_of_mem _ (List.mem_cons_of_mem _ hm.2))⟩
        · intro h; simp at h
      · intro h g hg
        cases hg with
        | head =>
          exact ⟨List.mem_cons_self _ _, by simp⟩
        | tail _ htl =>
          have hm := ih _ h g htl
          exact ⟨List.mem_cons_of_mem _ (List.mem_cons_of_mem _ (List.mem_cons_of_mem _ hm.1)),
                 List.mem_cons_of_mem _ (List.mem_cons_of_mem _ (List.mem_cons_of_mem _ hm.2))⟩

theorem rv_force_populate (env : Env) (id : String) :
    ∀ L props, (∀ f ∈ L, env.readFile f.image ≠ none) →
      (readVerify env id true L props).early = none ∧
      (readVerify env id true L props).flashables = L.map (populate env) := by
  intro L
  induction L with
  | nil => intro props _; exact ⟨rfl, rfl⟩
  | cons f fs ih =>
    intro props hr
    cases hread : env.readFile f.image with
    | none => exact absurd hread (hr f (List.mem_cons_self f fs))
    | some bytes =>
      rw [rv_step_force env id f fs props bytes hread]
      obtain ⟨ih1, ih2⟩ := ih (checksums_update props id (base_name f.image) (env.sha512hex bytes))
        (fun g hg => hr g (List.mem_cons_of_mem f hg))
      refine ⟨ih1, ?_⟩
      have hpop : populate env f =
          ⟨f.image, f.block_dev, env.sha512hex bytes, env.sha512hex bytes, bytes⟩ := by
        simp [populate, image_hash, hread]
      simp [ih2, hpop]

theorem rv_force_no_invalid (env : Env) (id : String) (hne : ∀ b, env.sha512hex b ≠ "") :
    ∀ L props, (readVerify env id true L props).early = some SwitchRomResult.failed ∨
      ((readVerify env id true L props).early = none ∧
       ∀ g ∈ (readVerify env id true L props).flashables, g.expected_hash ≠ "") := by
  intro L
  induction L with
  | nil => intro props; exact Or.inr ⟨rfl, fun g hg => absurd hg (List.not_mem_nil g)⟩
  | cons f fs ih =>
    intro props
    cases hread : env.readFile f.image with
    | none =>
      rw [rv_step_fail env id true f fs props hread]
      exact Or.inl rfl
    | some bytes =>
      rw [rv_step_force env id f fs props bytes hread]
      rcases ih (checksums_update props id (base_name f.image) (env.sha512hex bytes)) with h | ⟨h1, h2⟩
      · exact Or.inl h
      · refine Or.inr ⟨h1, ?_⟩
        intro g hg
        rcases List.mem_cons.mp hg with rfl | htl
        · exact hne bytes
        · exact h2 g htl

theorem rv_props_untouched (env : Env) (id : String) (force : Bool) :
    ∀ L props k, (∀ f ∈ L, fkey id f ≠ k) →
      store_get (readVerify env id force L props).props k = store_get props k := by
  intro L
  induction L with
  | nil => intro props k _; rfl
  | cons f fs ih =>
    intro props k hk
    have hkf : k ≠ fkey id f := Ne.symm (hk f (List.mem_cons_self f fs))
    have hk' : ∀ g ∈ fs, fkey id g ≠ k := fun g hg => hk g (List.mem_cons_of_mem f hg)
    have hset : ∀ v, store_get (store_set props (fkey id f) v) k = store_get props k :=
      fun v => store_get_set_ne props (fkey id f) v k hkf
    cases hread : env.readFile f.image with
    | none => rw [rv_step_fail env id force f fs props hread]
    | some bytes =>
      cases force with
      | true =>
        rw [rv_step_force env id f fs props bytes hread]
        have := ih (checksums_update props id (base_name f.image) (env.sha512hex bytes)) k hk'
        simp only at this ⊢
        rw [this]
        exact hset _
      | false =>
        cases hget : checksums_get props id (base_name f.image) with
        | malformed => rw [rv_step0_malformed env id f fs props bytes hread hget]
        | notFound =>
          rw [rv_step0_notFound env id f fs props bytes hread hget]
          exact ih props k hk'
        | found e =>
          by_cases he : e = env.sha512hex bytes
          · rw [rv_step0_found_eq env id f fs props bytes e hread hget he]
            exact ih props k hk'
          · rw [rv_step0_found_ne env id f fs props bytes e hread hget he]

theorem rv_props_correct (env : Env) (id : String) :
    ∀ L props, (∀ f ∈ L, env.readFile f.image ≠ none) →
      (∀ f ∈ L, ∀ g ∈ L, fkey id f = fkey id g → f.image = g.image) →
      ∀ f ∈ L, store_get (readVerify env id true L props).props (fkey id f) =
        some ("sha512:" ++ image_hash env f) := by
  intro L
  induction L with
  | nil => intro props _ _ f hf; cases hf
  | cons f0 fs ih =>
    intro props hr hc f hf
    cases hread : env.readFile f0.image with
    | none => exact absurd hread (hr f0 (List.mem_cons_self f0 fs))
    | some bytes =>
      rw [rv_step_force env id f0 fs props bytes hread]
      simp only
      have hr' : ∀ g ∈ fs, env.readFile g.image ≠ none :=
        fun g hg => hr g (List.mem_cons_of_mem _ hg)
      have hc' : ∀ a ∈ fs, ∀ b ∈ fs, fkey id a = fkey id b → a.image = b.image :=
        fun a ha b hb => hc a (List.mem_cons_of_mem _ ha) b (List.mem_cons_of_mem _ hb)
      cases List.mem_cons.mp hf with
      | inl hf0 =>
        subst hf0
        have hhash0 : image_hash env f = env.sha512hex bytes := by
          simp [image_hash, hread]
        by_cases hex : ∃ g ∈ fs, fkey id g = fkey id f
        · obtain ⟨g, hg, hkey⟩ := hex
          have himg : g.image = f.image :=
            hc g (List.mem_cons_of_mem _ hg) f (List.mem_cons_self _ _) hkey
          have hgres := ih (checksums_update props id (base_name f.image) (env.sha512hex bytes))
            hr' hc' g hg
          rw [hkey] at hgres
          rw [hgres]
          have hih : image_hash env g = image_hash env f := by
            rw [image_hash, image_hash, himg]
          rw [hih]
        · push_neg at hex
          rw [rv_props_untouched env id true fs _ (fkey id f) hex]
          rw [hhash0]
          exact store_get_set_self props (fkey id f) ("sha512:" ++ env.sha512hex bytes)
      | inr htl =>
        exact ih (checksums_update props id (base_name f0.image) (env.sha512hex bytes))
          hr' hc' f htl

theorem rv_mismatch (env : Env) (id : String) :
    ∀ L, (∀ f ∈ L, env.readFile f.image ≠ none) →
      (∃ f ∈ L, bad_entry env id f = true) →
      (readVerify env id false L env.checksumsProps).early =
        some SwitchRomResult.checksumInvalid := by
  intro L
  induction L with
  | nil => intro _ h; obtain ⟨f, hf, -⟩ := h; cases hf
  | cons f0 fs ih =>
    intro hr hbad
    cases hread : env.readFile f0.image with
    | none => exact absurd hread (hr f0 (List.mem_cons_self _ _))
    | some bytes =>
      have hhash0 : image_hash env f0 = env.sha512hex bytes := by
        simp [image_hash, hread]
      cases hget : checksums_get env.checksumsProps id (base_name f0.image) with
      | malformed =>
        rw [rv_step0_malformed env id f0 fs env.checksumsProps bytes hread hget]
      | found e =>
        by_cases he : e = env.sha512hex bytes
        · rw [rv_step0_found_eq env id f0 fs env.checksumsProps bytes e hread hget he]
          simp only
          apply ih (fun g hg => hr g (List.mem_cons_of_mem _ hg))
          obtain ⟨g, hg, hb⟩ := hbad
          rcases List.mem_cons.mp hg with rfl | htl
          · exfalso
            simp only [bad_entry, hget] at hb
            exact (of_decide_eq_true hb) (by rw [hhash0]; exact he)
          · exact ⟨g, htl, hb⟩
        · rw [rv_step0_found_ne env id f0 fs env.checksumsProps bytes e hread hget he]
      | notFound =>
        rw [rv_step0_notFound env id f0 fs env.checksumsProps bytes hread hget]
        simp only
        apply ih (fun g hg => hr g (List.mem_cons_of_mem _ hg))
        obtain ⟨g, hg, hb⟩ := hbad
        rcases List.mem_cons.mp hg with rfl | htl
        · exfalso
          simp only [bad_entry, hget] at hb
          cases hb
        · exact ⟨g, htl, hb⟩

theorem rv_each_read_before (env : Env) (id : String) (force : Bool) :
    ∀ L props, each_image_read_before_use (readVerify env id force L props).events := by
  intro L
  induction L with
  | nil =>
    intro props n img h
    rcases h with h | h <;> simp [readVerify, List.get?] at h
  | cons f fs ih =>
    intro props
    cases hread : env.readFile f.image with
    | none =>
      rw [rv_step_fail env id force f fs props hread]
      intro n img h
      rcases h with h | h <;> rcases n with _ | n <;> simp [List.get?] at h
    | some bytes =>
      simp only [readVerify, hread]
      split
      · intro n img h
        rcases h with h | h <;> rcases n with _ | _ | _ | n <;> simp [List.get?] at h
        · rw [← h]; simp [List.take]
        · rw [← h]; simp [List.take]
      · split
        · intro n img h
          rcases n with _ | _ | _ | n
          · rcases h with h | h <;> simp [List.get?] at h
          · rcases h with h | h <;> simp [List.get?] at h
            rw [← h]; simp [List.take]
          · rcases h with h | h <;> simp [List.get?] at h
            rw [← h]; simp [List.take]
          · have hm := ih (if force = true then
                checksums_update props id (base_name f.image) (env.sha512hex bytes)
                else props) n img h
            simp only [List.take]
            exact List.mem_cons_of_mem _ (List.mem_cons_of_mem _ (List.mem_cons_of_mem _ hm))
        · intro n img h
          rcases h with h | h <;> rcases n with _ | _ | _ | n <;> simp [List.get?] at h
          · rw [← h]; simp [List.take]
          · rw [← h]; simp [List.take]
      · intro n img h
        rcases n with _ | _ | _ | n
        · rcases h with h | h <;> simp [List.get?] at h
        · rcases h with h | h <;> simp [List.get?] at h
          rw [← h]; simp [List.take]
        · rcases h with h | h <;> simp [List.get?] at h
          rw [← h]; simp [List.take]
        · have hm := ih (if force = true then
              checksums_update props id (base_name f.image) (env.sha512hex bytes)
              else props) n img h
          simp only [List.take]
          exact List.mem_cons_of_mem _ (List.mem_cons_of_mem _ (List.mem_cons_of_mem _ hm))

theorem sweep_none {L : List Flashable} (h : ∀ f ∈ L, f.expected_hash ≠ "") :
    missing_sweep L = none := by
  induction L with
  | nil => rfl
  | cons f fs ih =>
    rw [missing_sweep]
    rw [if_neg (h f (List.mem_cons_self _ _))]
    exact ih fun g hg => h g (List.mem_cons_of_mem _ hg)

theorem flash_events_all_flash (env : Env) :
    ∀ L, ∀ e ∈ flash_events env L, is_flash_event e = true := by
  intro L
  induction L with
  | nil => intro e he; cases he
  | cons f fs ih =>
    intro e he
    rw [flash_events] at he
    by_cases hw : env.writeOk f.block_dev = true
    · rw [if_pos hw] at he
      rcases List.mem_cons.mp he with rfl | htl
      · rfl
      · exact ih e htl
    · rw [if_neg hw] at he
      rcases List.mem_cons.mp he with rfl | htl
      · rfl
      · cases htl

theorem flash_result_ok (env : Env) :
    ∀ L, (∀ f ∈ L, env.writeOk f.block_dev = true) → flash_result env L = none := by
  intro L
  induction L with
  | nil => intro _; rfl
  | cons f fs ih =>
    intro h
    rw [flash_result, if_pos (h f (List.mem_cons_self _ _))]
    exact ih fun g hg => h g (List.mem_cons_of_mem _ hg)

theorem flash_events_mem (env : Env) :
    ∀ L, (∀ f ∈ L, env.writeOk f.block_dev = true) →
      ∀ f ∈ L, Event.devWrite f.block_dev f.data ∈ flash_events env L := by
  intro L
  induction L with
  | nil => intro _ f hf; cases hf
  | cons f fs ih =>
    intro h g hg
    rw [flash_events, if_pos (h f (List.mem_cons_self _ _))]
    rcases List.mem_cons.mp hg with rfl | htl
    · exact List.mem_cons_self _ _
    · exact List.mem_cons_of_mem _ (ih (fun a ha => h a (List.mem_cons_of_mem _ ha)) g htl)

theorem flash_result_failed (env : Env) :
    ∀ L r, flash_result env L = some r → r = SwitchRomResult.failed := by
  intro L
  induction L with
  | nil => intro r h; cases h
  | cons f fs ih =>
    intro r h
    rw [flash_result] at h
    by_cases hw : env.writeOk f.block_dev = true
    · rw [if_pos hw] at h
      exact ih r h
    · rw [if_neg hw] at h
      cases h
      rfl

theorem eirbu_append_flash {tr te : List Event} (h : each_image_read_before_use tr)
    (hte : ∀ e ∈ te, is_flash_event e = true) :
    each_image_read_before_use (tr ++ te) := by
  intro n img hn
  by_cases hlt : n < tr.length
  · have hget : (tr ++ te).get? n = tr.get? n := List.get?_append hlt
    rw [hget] at hn
    have hm := h n img hn
    rw [List.take_append_of_le_length (le_of_lt hlt)]
    exact hm
  · exfalso
    push_neg at hlt
    have hget : (tr ++ te).get? n = te.get? (n - tr.length) := List.get?_append_right hlt
    rw [hget] at hn
    rcases hn with hn | hn
    · have hmem : Event.digest img ∈ te := List.get?_mem hn
      have := hte _ hmem
      cases this
    · have hmem : Event.verify img ∈ te := List.get?_mem hn
      have := hte _ hmem
      cases this

/-- C7: for every store, ROM id, image name and digest string d,
`checksums_update` followed by `checksums_get` on the same key returns
`found` with exactly d. -/
theorem checksums_update_then_get (props : List (String × String)) (rom_id image d : String) :
    checksums_get (checksums_update props rom_id image d) rom_id image =
      ChecksumsGetResult.found d :=
  get_update_found props rom_id image d

/-- C4: for a key present in the store, `checksums_get` returns `malformed` iff
the stored value has no ':' or its part before the first ':' is not "sha512";
an absent key gives `notFound`; otherwise it returns `found` with the part
after the first ':'. -/
theorem checksums_get_characterization (props : List (String × String)) (rom_id image : String) :
    (store_get props (rom_id ++ "/" ++ image) = none →
      checksums_get props rom_id image = ChecksumsGetResult.notFound) ∧
    ∀ v, store_get props (rom_id ++ "/" ++ image) = some v →
      ((checksums_get props rom_id image = ChecksumsGetResult.malformed ↔
        (':' ∉ v.data ∨ String.mk (v.data.takeWhile fun c => decide (c ≠ ':')) ≠ "sha512")) ∧
       ((':' ∈ v.data ∧ String.mk (v.data.takeWhile fun c => decide (c ≠ ':')) = "sha512") →
        checksums_get props rom_id image =
          ChecksumsGetResult.found
            (String.mk ((v.data.dropWhile fun c => decide (c ≠ ':')).tail)))) := by
  constructor
  · intro h
    simp only [checksums_get, h]
  · intro v hv
    by_cases hc : ':' ∈ v.data
    · have hs := sfc_some_of hc
      constructor
      · constructor
        · intro hm
          simp only [checksums_get, hv, hs] at hm
          by_cases ha : String.mk (v.data.takeWhile fun c => decide (c ≠ ':')) = "sha512"
          · rw [if_pos ha] at hm
            cases hm
          · exact Or.inr ha
        · intro hd
          rcases hd with hd | hd
          · exact absurd hc hd
          · simp only [checksums_get, hv, hs]
            rw [if_neg hd]
      · rintro ⟨h1, h2⟩
        simp only [checksums_get, hv, hs]
        rw [if_pos h2]
    · have hn := sfc_none_of hc
      have hm : checksums_get props rom_id image = ChecksumsGetResult.malformed := by
        simp only [checksums_get, hv, hn]
      constructor
      · constructor
        · intro _
          exact Or.inl hc
        · intro _
          exact hm
      · rintro ⟨h1, -⟩
        exact absurd h1 hc

/-- C8: the privileged-open wire schema is exactly a request of a path plus a
list of flags drawn from the six symbolic values, and a response of a success
boolean plus an error-message string, with no descriptor field. -/
theorem open_protocol_schema :
    (∀ f : OpenFlag, f = OpenFlag.APPEND ∨ f = OpenFlag.CREAT ∨ f = OpenFlag.EXCL ∨
      f = OpenFlag.RDWR ∨ f = OpenFlag.TRUNC ∨ f = OpenFlag.WRONLY) ∧
    Function.Bijective (fun r : OpenRequest => (r.path, r.flags)) ∧
    Function.Bijective (fun r : OpenResponse => (r.success, r.error_msg)) := by
  refine ⟨?_, ⟨?_, ?_⟩, ⟨?_, ?_⟩⟩
  · intro f
    cases f
    · exact Or.inl rfl
    · exact Or.inr (Or.inl rfl)
    · exact Or.inr (Or.inr (Or.inl rfl))
    · exact Or.inr (Or.inr (Or.inr (Or.inl rfl)))
    · exact Or.inr (Or.inr (Or.inr (Or.inr (Or.inl rfl))))
    · exact Or.inr (Or.inr (Or.inr (Or.inr (Or.inr rfl))))
  · intro a b hab
    cases a
    cases b
    simpa using hab
  · intro p
    exact ⟨⟨p.1, p.2⟩, rfl⟩
  · intro a b hab
    cases a
    cases b
    simpa using hab
  · intro p
    exact ⟨⟨p.1, p.2⟩, rfl⟩

/-- C10: for a partition name starting with "mmcblk" whose direct
/dev/block path does not exist, `find_block_dev` falls through to probing
each search directory in order, returning the first existing candidate and
"" when none exists. -/
theorem find_block_dev_fallback_search (ex : String → Bool) (dirs : List String) (p : String)
    (h1 : has_pre "mmcblk".data p.data = true)
    (h2 : ex ("/dev/block/" ++ p) = false) :
    find_block_dev ex dirs p = (((dirs.map fun d => d ++ "/" ++ p).find? ex).getD "") := by
  have hcond : ¬ ((has_pre "mmcblk".data p.data && ex ("/dev/block/" ++ p)) = true) := by
    rw [h2, Bool.and_false]
    exact Bool.false_ne_true
  rw [find_block_dev, if_neg hcond, fbd_loop_eq_find]

/-- Witness for C10 at a concrete environment. -/
theorem find_block_dev_fallback_search_witness :
    has_pre "mmcblk".data "mmcblk0p1".data = true ∧
    (fun s => decide (s = "/custom/mmcblk0p1")) "/dev/block/mmcblk0p1" = false ∧
    find_block_dev (fun s => decide (s = "/custom/mmcblk0p1")) ["/none", "/custom"] "mmcblk0p1" =
      (((["/none", "/custom"]).map fun d => d ++ "/" ++ "mmcblk0p1").find?
        (fun s => decide (s = "/custom/mmcblk0p1"))).getD "" :=
  ⟨by decide, by decide,
   find_block_dev_fallback_search (fun s => decide (s = "/custom/mmcblk0p1"))
     ["/none", "/custom"] "mmcblk0p1" (by decide) (by decide)⟩

/-- Witness for C4 at a concrete store with a malformed entry. -/
theorem checksums_get_characterization_witness :
    store_get propsC4 ("r" ++ "/" ++ "b") = some "zzz" ∧
    (checksums_get propsC4 "r" "b" = ChecksumsGetResult.malformed ↔
      (':' ∉ "zzz".data ∨
       String.mk ("zzz".data.takeWhile fun c => decide (c ≠ ':')) ≠ "sha512")) :=
  ⟨by decide, ((checksums_get_characterization propsC4 "r" "b").2 "zzz" (by decide)).1⟩

/-- C6: whenever `set_kernel` persists a checksum store, the persisted store
agrees with the loaded store on every key other than `<rom_id>/boot.img`. -/
theorem set_kernel_frame (env : Env) (id bd : String) (ps : List (String × String))
    (h : (set_kernel env id bd).persisted = some ps) :
    ∀ k, k ≠ id ++ "/boot.img" → store_get ps k = store_get env.checksumsProps k := by
  intro k hk
  have hkey : k ≠ id ++ "/" ++ "boot.img" := by
    intro hcon
    apply hk
    rw [hcon]
    apply string_ext
    rw [string_data_append, string_data_append, string_data_append, List.append_assoc]
    rfl
  rw [set_kernel] at h
  by_cases h1 : env.romExists id = true
  · rw [if_pos h1] at h
    by_cases h2 : env.mkdirOk = true
    · rw [if_pos h2] at h
      cases hread : env.readFile bd with
      | none =>
        rw [hread] at h
        cases h
      | some bytes =>
        rw [hread] at h
        simp only at h
        by_cases h3 : env.writeOk (bootimg_path id) = true
        · rw [if_pos h3] at h
          by_cases h4 : env.fixPermsOk = true
          · rw [if_pos h4] at h
            simp only [Option.some.injEq] at h
            rw [← h]
            exact store_get_set_ne _ _ _ _ hkey
          · rw [if_neg h4] at h
            simp only [Option.some.injEq] at h
            rw [← h]
            exact store_get_set_ne _ _ _ _ hkey
        · rw [if_neg h3] at h
          cases h
    · rw [if_neg h2] at h
      cases h
  · rw [if_neg h1] at h
    cases h

/-- Witness for C6 at a concrete environment and store. -/
theorem set_kernel_frame_witness :
    (set_kernel envC6 "r1" "/dev/bootdev").persisted = some psC6 ∧
    store_get psC6 "other/entry" = store_get envC6.checksumsProps "other/entry" :=
  ⟨by decide,
   set_kernel_frame envC6 "r1" "/dev/bootdev" psC6 (by decide) "other/entry" (by decide)⟩

/-- C2: with `force_update_checksums` unset, all images readable, some image
whose stored checksum is malformed or mismatching and some image whose
checksum is absent, `switch_rom` returns `checksumInvalid` (never
`checksumNotFound`), whatever the order of the images. -/
theorem switch_rom_mismatch_precedence (env : Env) (id bd : String) (dirs : List String)
    (h1 : env.romExists id = true) (h2 : env.mkdirOk = true)
    (h3 : ∀ f ∈ flashable_list env id bd dirs, env.readFile f.image ≠ none)
    (h4 : ∃ f ∈ flashable_list env id bd dirs, bad_entry env id f = true)
    (h5 : ∃ g ∈ flashable_list env id bd dirs,
      checksums_get env.checksumsProps id (base_name g.image) = ChecksumsGetResult.notFound) :
    (switch_rom env id bd dirs false).result = SwitchRomResult.checksumInvalid := by
  have he := rv_mismatch env id (flashable_list env id bd dirs) h3 h4
  rw [switch_rom, if_pos h1, if_pos h2]
  simp only [he]

/-- Witness for C2 at a concrete environment: mismatching boot entry, absent
mdm entry. -/
theorem switch_rom_mismatch_precedence_witness :
    (∃ f ∈ flashable_list envC2 "r1" "/dev/boot" ["/dv"], bad_entry envC2 "r1" f = true) ∧
    (∃ g ∈ flashable_list envC2 "r1" "/dev/boot" ["/dv"],
      checksums_get envC2.checksumsProps "r1" (base_name g.image) =
        ChecksumsGetResult.notFound) ∧
    (switch_rom envC2 "r1" "/dev/boot" ["/dv"] false).result =
      SwitchRomResult.checksumInvalid :=
  ⟨by decide, by decide,
   switch_rom_mismatch_precedence envC2 "r1" "/dev/boot" ["/dv"] (by decide) rfl
     (by decide) (by decide) (by decide)⟩

/-- C9: with `force_update_checksums` set (and digests never empty, as SHA512
hex digests are 128 characters), `switch_rom` can never return
`checksumInvalid` or `checksumNotFound`: each entry is overwritten with the
freshly computed digest before it is looked up. -/
theorem switch_rom_force_never_checksum_failure (env : Env) (id bd : String)
    (dirs : List String) (hne : ∀ b, env.sha512hex b ≠ "") :
    (switch_rom env id bd dirs true).result ≠ SwitchRomResult.checksumInvalid ∧
    (switch_rom env id bd dirs true).result ≠ SwitchRomResult.checksumNotFound := by
  rw [switch_rom]
  by_cases h1 : env.romExists id = true
  · rw [if_pos h1]
    by_cases h2 : env.mkdirOk = true
    · rw [if_pos h2]
      rcases rv_force_no_invalid env id hne (flashable_list env id bd dirs)
          env.checksumsProps with he | ⟨he, hexp⟩
      · simp only [he]
        exact ⟨by decide, by decide⟩
      · simp only [he]
        have hsw : missing_sweep (readVerify env id true (flashable_list env id bd dirs)
            env.checksumsProps).flashables = none := sweep_none hexp
        simp only [hsw]
        cases hfr : flash_result env (readVerify env id true (flashable_list env id bd dirs)
            env.checksumsProps).flashables with
        | some r =>
          simp only [hfr]
          have hr := flash_result_failed env _ r hfr
          subst hr
          exact ⟨by decide, by decide⟩
        | none =>
          simp only [hfr]
          by_cases hfp : env.fixPermsOk = true
          · rw [hfp]
            exact ⟨by decide, by decide⟩
          · rw [Bool.not_eq_true] at hfp
            rw [hfp]
            exact ⟨by decide, by decide⟩
    · rw [if_neg h2]
      exact ⟨by decide, by decide⟩
  · rw [if_neg h1]
    exact ⟨by decide, by decide⟩

/-- Witness for C9 at a concrete environment whose store entry is malformed,
yet a forced switch never reports a checksum failure. -/
theorem switch_rom_force_never_checksum_failure_witness :
    (∀ b, envC9.sha512hex b ≠ "") ∧
    ((switch_rom envC9 "r1" "/dev/boot" ["/dv"] true).result ≠
        SwitchRomResult.checksumInvalid ∧
     (switch_rom envC9 "r1" "/dev/boot" ["/dv"] true).result ≠
        SwitchRomResult.checksumNotFound) := by
  have hne : ∀ b, envC9.sha512hex b ≠ "" := by
    intro b
    show (if b = [0] then "h0" else "h1") ≠ ""
    by_cases hb : b = [0]
    · rw [if_pos hb]
      decide
    · rw [if_neg hb]
      decide
  exact ⟨hne, switch_rom_force_never_checksum_failure envC9 "r1" "/dev/boot" ["/dv"] hne⟩

/-- C3 counterexample: with two images in the set, `switch_rom` computes the
first image's digest before it reads the second image, so the claimed
"all reads complete before any digest computation" phase ordering is false. -/
theorem switch_rom_read_phase_counterexample :
    ¬ reads_phase_first (switch_rom envC3 "r1" "/dev/boot" ["/dv"] true).events := by
  unfold reads_phase_first
  decide

/-- C3 amended: in every `switch_rom` execution, each image is fully read into
memory before that same image's digest computation and checksum verification
(read and verify are interleaved per image, not phase-separated across the
whole set). -/
theorem switch_rom_each_image_read_before_use (env : Env) (id bd : String)
    (dirs : List String) (force : Bool) :
    each_image_read_before_use (switch_rom env id bd dirs force).events := by
  rw [switch_rom]
  by_cases h1 : env.romExists id = true
  · rw [if_pos h1]
    by_cases h2 : env.mkdirOk = true
    · rw [if_pos h2]
      cases ho : (readVerify env id force (flashable_list env id bd dirs)
          env.checksumsProps).early with
      | some r =>
        simp only [ho]
        exact rv_each_read_before env id force _ _
      | none =>
        simp only [ho]
        cases hsw : missing_sweep (readVerify env id force (flashable_list env id bd dirs)
            env.checksumsProps).flashables with
        | some r =>
          simp only [hsw]
          exact rv_each_read_before env id force _ _
        | none =>
          simp only [hsw]
          cases hfr : flash_result env (readVerify env id force (flashable_list env id bd dirs)
              env.checksumsProps).flashables with
          | some r =>
            simp only [hfr]
            exact eirbu_append_flash (rv_each_read_before env id force _ _)
              (flash_events_all_flash env _)
          | none =>
            simp only [hfr]
            exact eirbu_append_flash (rv_each_read_before env id force _ _)
              (flash_events_all_flash env _)
    · rw [if_neg h2]
      intro n img h
      rcases h with h | h <;> simp [List.get?] at h
  · rw [if_neg h1]
    intro n img h
    rcases h with h | h <;> simp [List.get?] at h

/-- Witness for C3's amended claim at a concrete two-image environment. -/
theorem switch_rom_each_image_read_before_use_witness :
    (switch_rom envC3 "r1" "/dev/boot" ["/dv"] true).events.get? 1 =
      some (Event.digest "/data/media/0/MultiBoot/r1/boot.img") ∧
    Event.readOk "/data/media/0/MultiBoot/r1/boot.img" ∈
      (switch_rom envC3 "r1" "/dev/boot" ["/dv"] true).events.take 1 :=
  ⟨by decide,
   switch_rom_each_image_read_before_use envC3 "r1" "/dev/boot" ["/dv"] true 1
     "/data/media/0/MultiBoot/r1/boot.img" (Or.inl (by decide))⟩

/-- C5: a forced switch in which the ROM id is valid, all reads, flashes and
the permission fix succeed, and no prior checksum entries exist, returns
`succeeded` and persists a store mapping each image's key to "sha512:"
followed by the digest of exactly the bytes written to that image's
destination block device. -/
theorem switch_rom_force_update_records_digests (env : Env) (id bd : String)
    (dirs : List String)
    (h1 : env.romExists id = true) (h2 : env.mkdirOk = true)
    (h3 : ∀ f ∈ flashable_list env id bd dirs, env.readFile f.image ≠ none)
    (h4 : ∀ f ∈ flashable_list env id bd dirs,
      store_get env.checksumsProps (id ++ "/" ++ base_name f.image) = none)
    (h5 : ∀ f ∈ flashable_list env id bd dirs, env.writeOk f.block_dev = true)
    (h6 : env.fixPermsOk = true)
    (h7 : ∀ b, env.sha512hex b ≠ "") :
    (switch_rom env id bd dirs true).result = SwitchRomResult.succeeded ∧
    ∃ ps, (switch_rom env id bd dirs true).persisted = some ps ∧
      ∀ f ∈ flashable_list env id bd dirs,
        Event.devWrite f.block_dev ((env.readFile f.image).getD []) ∈
          (switch_rom env id bd dirs true).events ∧
        store_get ps (id ++ "/" ++ base_name f.image) =
          some ("sha512:" ++ env.sha512hex ((env.readFile f.image).getD [])) := by
  obtain ⟨hearly, hflash⟩ :=
    rv_force_populate env id (flashable_list env id bd dirs) env.checksumsProps h3
  have hpc := rv_props_correct env id (flashable_list env id bd dirs) env.checksumsProps h3
    (fkey_inj env id bd dirs)
  have hsw : missing_sweep (readVerify env id true (flashable_list env id bd dirs)
      env.checksumsProps).flashables = none := by
    rw [hflash]
    apply sweep_none
    intro g hg
    obtain ⟨f, hf, rfl⟩ := List.mem_map.mp hg
    exact h7 _
  have hwall : ∀ g ∈ (readVerify env id true (flashable_list env id bd dirs)
      env.checksumsProps).flashables, env.writeOk g.block_dev = true := by
    rw [hflash]
    intro g hg
    obtain ⟨f, hf, rfl⟩ := List.mem_map.mp hg
    exact h5 f hf
  have hfr : flash_result env (readVerify env id true (flashable_list env id bd dirs)
      env.checksumsProps).flashables = none := flash_result_ok env _ hwall
  rw [switch_rom, if_pos h1, if_pos h2]
  simp only [hearly, hsw, hfr, h6, if_true]
  refine ⟨?_, (readVerify env id true (flashable_list env id bd dirs)
    env.checksumsProps).props, ?_, ?_⟩
  · trivial
  · trivial
  intro f hf
  constructor
  · apply List.mem_append_right
    have hmem : populate env f ∈ (readVerify env id true (flashable_list env id bd dirs)
        env.checksumsProps).flashables := by
      rw [hflash]
      exact List.mem_map_of_mem _ hf
    exact flash_events_mem env _ hwall (populate env f) hmem
  · exact hpc f hf

theorem not_flash_not_dev_write (e : Event) (h : is_flash_event e = false) :
    is_dev_write e = false := by
  cases e <;> first | rfl | cases h

theorem dev_write_is_flash (e : Event) (h : is_dev_write e = true) :
    is_flash_event e = true := by
  cases e <;> first | rfl | cases h

/-- C1: `switch_rom` performs no block-device write unless every flashable was
first read entirely into memory and verified: a failed read yields `failed`
with no write events, a write event implies every flashable was read and
verified, and the trace splits into a write-free prefix (the read/verify
phase) and a flash-only suffix. -/
theorem switch_rom_no_write_without_full_read (env : Env) (id bd : String)
    (dirs : List String) (force : Bool) :
    ((∃ img, Event.readFail img ∈ (switch_rom env id bd dirs force).events) →
      (switch_rom env id bd dirs force).result = SwitchRomResult.failed ∧
      ∀ e ∈ (switch_rom env id bd dirs force).events, is_dev_write e = false) ∧
    ((∃ e ∈ (switch_rom env id bd dirs force).events, is_dev_write e = true) →
      ∀ f ∈ flashable_list env id bd dirs,
        Event.readOk f.image ∈ (switch_rom env id bd dirs force).events ∧
        Event.verify f.image ∈ (switch_rom env id bd dirs force).events) ∧
    (∃ pre post, (switch_rom env id bd dirs force).events = pre ++ post ∧
      (∀ e ∈ pre, is_dev_write e = false) ∧
      (∀ e ∈ post, is_flash_event e = true)) := by
  rw [switch_rom]
  by_cases h1 : env.romExists id = true
  case neg =>
    rw [if_neg h1]
    refine ⟨?_, ?_, [], [], rfl, ?_, ?_⟩
    · rintro ⟨img, hm⟩
      cases hm
    · rintro ⟨e, he, -⟩
      cases he
    · intro e he
      cases he
    · intro e he
      cases he
  rw [if_pos h1]
  by_cases h2 : env.mkdirOk = true
  case neg =>
    rw [if_neg h2]
    refine ⟨?_, ?_, [], [], rfl, ?_, ?_⟩
    · rintro ⟨img, hm⟩
      cases hm
    · rintro ⟨e, he, -⟩
      cases he
    · intro e he
      cases he
    · intro e he
      cases he
  rw [if_pos h2]
  cases ho : (readVerify env id force (flashable_list env id bd dirs)
      env.checksumsProps).early with
  | some r =>
    simp only [ho]
    refine ⟨?_, ?_, (readVerify env id force (flashable_list env id bd dirs)
      env.checksumsProps).events, [], (List.append_nil _).symm, ?_, ?_⟩
    · rintro ⟨img, hm⟩
      have hearly := rv_readFail_early env id force _ env.checksumsProps img hm
      rw [ho] at hearly
      have hr : r = SwitchRomResult.failed := by
        injection hearly
      constructor
      · exact hr
      · intro e he
        exact not_flash_not_dev_write e
          (rv_events_not_flash env id force _ env.checksumsProps e he)
    · rintro ⟨e, he, hw⟩
      have hnf := rv_events_not_flash env id force _ env.checksumsProps e he
      rw [dev_write_is_flash e hw] at hnf
      cases hnf
    · intro e he
      exact not_flash_not_dev_write e
        (rv_events_not_flash env id force _ env.checksumsProps e he)
    · intro e he
      cases he
  | none =>
    simp only [ho]
    cases hsw : missing_sweep (readVerify env id force (flashable_list env id bd dirs)
        env.checksumsProps).flashables with
    | some r =>
      simp only [hsw]
      refine ⟨?_, ?_, (readVerify env id force (flashable_list env id bd dirs)
        env.checksumsProps).events, [], (List.append_nil _).symm, ?_, ?_⟩
      · rintro ⟨img, hm⟩
        have hearly := rv_readFail_early env id force _ env.checksumsProps img hm
        rw [ho] at hearly
        cases hearly
      · rintro ⟨e, he, hw⟩
        have hnf := rv_events_not_flash env id force _ env.checksumsProps e he
        rw [dev_write_is_flash e hw] at hnf
        cases hnf
      · intro e he
        exact not_flash_not_dev_write e
          (rv_events_not_flash env id force _ env.checksumsProps e he)
      · intro e he
        cases he
    | none =>
      cases hfr : flash_result env (readVerify env id force (flashable_list env id bd dirs)
          env.checksumsProps).flashables with
      | some r =>
        simp only [hfr]
        refine ⟨?_, ?_, (readVerify env id force (flashable_list env id bd dirs)
          env.checksumsProps).events,
          flash_events env (readVerify env id force (flashable_list env id bd dirs)
            env.checksumsProps).flashables, rfl, ?_, ?_⟩
        · rintro ⟨img, hm⟩
          exfalso
          rcases List.mem_append.mp hm with hm | hm
          · have hearly := rv_readFail_early env id force _ env.checksumsProps img hm
            rw [ho] at hearly
            cases hearly
          · have hfl := flash_events_all_flash env _ _ hm
            cases hfl
        · rintro -
          intro f hf
          have hm := rv_early_none_mem env id force _ env.checksumsProps ho f hf
          exact ⟨List.mem_append_left _ hm.1, List.mem_append_left _ hm.2⟩
        · intro e he
          exact not_flash_not_dev_write e
            (rv_events_not_flash env id force _ env.checksumsProps e he)
        · exact flash_events_all_flash env _
      | none =>
        simp only [hfr]
        refine ⟨?_, ?_, (readVerify env id force (flashable_list env id bd dirs)
          env.checksumsProps).events,
          flash_events env (readVerify env id force (flashable_list env id bd dirs)
            env.checksumsProps).flashables, rfl, ?_, ?_⟩
        · rintro ⟨img, hm⟩
          exfalso
          rcases List.mem_append.mp hm with hm | hm
          · have hearly := rv_readFail_early env id force _ env.checksumsProps img hm
            rw [ho] at hearly
            cases hearly
          · have hfl := flash_events_all_flash env _ _ hm
            cases hfl
        · rintro -
          intro f hf
          have hm := rv_early_none_mem env id force _ env.checksumsProps ho f hf
          exact ⟨List.mem_append_left _ hm.1, List.mem_append_left _ hm.2⟩
        · intro e he
          exact not_flash_not_dev_write e
            (rv_events_not_flash env id force _ env.checksumsProps e he)
        · exact flash_events_all_flash env _

/-- Witness for C1 at a concrete environment whose boot image read fails. -/
theorem switch_rom_no_write_without_full_read_witness :
    (Event.readFail "/data/media/0/MultiBoot/r1/boot.img" ∈
      (switch_rom envC1 "r1" "/dev/boot" [] false).events) ∧
    ((switch_rom envC1 "r1" "/dev/boot" [] false).result = SwitchRomResult.failed ∧
     ∀ e ∈ (switch_rom envC1 "r1" "/dev/boot" [] false).events, is_dev_write e = false) :=
  ⟨by decide,
   (switch_rom_no_write_without_full_read envC1 "r1" "/dev/boot" [] false).1
     ⟨"/data/media/0/MultiBoot/r1/boot.img", by decide⟩⟩

/-- Witness for C5 at a concrete environment where every step succeeds. -/
theorem switch_rom_force_update_records_digests_witness :
    (∀ f ∈ flashable_list envC5 "r1" "/dev/boot" ["/dv"],
      store_get envC5.checksumsProps ("r1" ++ "/" ++ base_name f.image) = none) ∧
    ((switch_rom envC5 "r1" "/dev/boot" ["/dv"] true).result = SwitchRomResult.succeeded ∧
     ∃ ps, (switch_rom envC5 "r1" "/dev/boot" ["/dv"] true).persisted = some ps ∧
       ∀ f ∈ flashable_list envC5 "r1" "/dev/boot" ["/dv"],
         Event.devWrite f.block_dev ((envC5.readFile f.image).getD []) ∈
           (switch_rom envC5 "r1" "/dev/boot" ["/dv"] true).events ∧
         store_get ps ("r1" ++ "/" ++ base_name f.image) =
           some ("sha512:" ++ envC5.sha512hex ((envC5.readFile f.image).getD []))) := by
  have hne : ∀ b, envC5.sha512hex b ≠ "" := by
    intro b
    show (if b = [0] then "h0" else "h1") ≠ ""
    by_cases hb : b = [0]
    · rw [if_pos hb]
      decide
    · rw [if_neg hb]
      decide
  exact ⟨by decide,
    switch_rom_force_update_records_digests envC5 "r1" "/dev/boot" ["/dv"] (by decide) rfl
      (by decide) (by decide) (by decide) rfl hne⟩
